import Mathlib

/-!
Verification of the jscpd-ai duplication pipeline and AI reporter.

Part 1 models the detection core (tokenized files, fixed-width frames,
advisory rolling hash, last-writer-wins store, Rabin–Karp forward pass
with greedy extension).  The core packages are not shipped with this
checkout, so these definitions are modelled from the specification's
component design (§4.2–§4.4, §8).

Part 2 embeds the `AIReporter` class and the `ProgressiveWriter` class,
whose sources are present, as explicit state-passing functions.
-/

namespace Jscpd

/-! ### Definitions -/

/-- Modelled from the spec: a source file after tokenization and mask-key
derivation (§3, §4.1–§4.2).  Only the significant tokens remain; token `t`
(for `t < numTokens`) carries the mask key `keys t`.  The core tokenizer
package is not under `src/`. -/
structure SourceFile where
  sid : Nat
  numTokens : Nat
  keys : Nat → String

/-- Mask keys covered by the window of `m` tokens starting at token `i`. -/
def windowKeys (f : SourceFile) (i m : Nat) : List String :=
  (List.range m).map (fun t => f.keys (i + t))

/-- Modelled from the spec: the advisory polynomial hash over the
concatenated mask-key characters (§4.2).  The exact base and modulus are an
implementer's choice; collisions are possible, which is why the matcher
verifies token-by-token. -/
def hashKeys (ks : List String) : Nat :=
  ks.foldl (fun a s => s.data.foldl (fun b c => (b * 31 + c.toNat) % 1009) a) 0

/-- Modelled from the spec: a store record — the last observed frame with a
given hash id (§3 StoreRecord). -/
structure StoreRec where
  sid : Nat
  index : Nat
deriving DecidableEq, Repr

/-- Modelled from the spec: the in-memory store, a mapping from frame-hash
to the most recent occurrence (§4.3), last-writer-wins. -/
def Store := Nat → Option StoreRec

def emptyStore : Store := fun _ => none

def storeSet (st : Store) (id : Nat) (r : StoreRec) : Store :=
  fun h => if h = id then some r else st h

/-- A raw clone: inclusive frame-index ranges `[startA, endA]` on side A and
`[startB, endB]` on side B; with window width `m` the covered tokens are
`[startA, endA + m)` and `[startB, endB + m)` (§4.4 step 5). -/
structure RawClone where
  sidA : Nat
  startA : Nat
  endA : Nat
  sidB : Nat
  startB : Nat
  endB : Nat
  date : Nat
deriving DecidableEq, Repr

def lookupFile (files : List SourceFile) (s : Nat) : Option SourceFile :=
  files.find? (fun f => f.sid == s)

/-- Modelled from the spec: one extension step at offset `j ≥ 1` is allowed
when both sides still have a frame, the two frames share the same id, the
mask keys verify, and a same-file extension keeps the B region's start
strictly past the A region's end (§4.4 step 4 and the self-match rule). -/
def extOk (m : Nat) (fA fB : SourceFile) (pa pb j : Nat) : Prop :=
  pa + j + m ≤ fA.numTokens ∧ pb + j + m ≤ fB.numTokens ∧
    hashKeys (windowKeys fA (pa + j) m) = hashKeys (windowKeys fB (pb + j) m) ∧
    windowKeys fA (pa + j) m = windowKeys fB (pb + j) m ∧
    (fA.sid = fB.sid → pa + j < pb)

instance (m : Nat) (fA fB : SourceFile) (pa pb j : Nat) :
    Decidable (extOk m fA fB pa pb j) := by
  unfold extOk; infer_instance

/-- Greedy extension: grow `k` while the next step is allowed (§4.4 step 4).
`fuel` bounds the recursion; `fB.numTokens` steps always suffice. -/
def extendFrom (m : Nat) (fA fB : SourceFile) (pa pb : Nat) :
    Nat → Nat → Nat
  | 0, k => k
  | fuel + 1, k =>
    if extOk m fA fB pa pb (k + 1) then extendFrom m fA fB pa pb fuel (k + 1)
    else k

/-- Number of successful extensions for a candidate match rooted at frames
`pa` (side A, file `fA`) and `pb` (side B, file `fB`). -/
def extendLen (m : Nat) (fA fB : SourceFile) (pa pb : Nat) : Nat :=
  extendFrom m fA fB pa pb fB.numTokens 0

/-- Modelled from the spec: the single forward pass of the Rabin–Karp
matcher over the frames of file `f` (§4.4 steps 1–7).  At frame `i`:
consult the store; if absent or the same frame re-seen, record and step on;
otherwise verify the candidate token-by-token, extend greedily, emit a raw
clone, jump past the matched region, and record the current frame.  The
frame at index `i` exists iff `i + m ≤ f.numTokens`; `fuel` bounds the
pass, `f.numTokens + 1` always suffices. -/
def detectLoop (m date : Nat) (files : List SourceFile) (f : SourceFile) :
    Nat → Nat → Store → List RawClone × Store
  | 0, _, store => ([], store)
  | fuel + 1, i, store =>
    if i + m ≤ f.numTokens then
      match store (hashKeys (windowKeys f i m)) with
      | none =>
          detectLoop m date files f fuel (i + 1)
            (storeSet store (hashKeys (windowKeys f i m)) ⟨f.sid, i⟩)
      | some prior =>
        if prior.sid = f.sid ∧ prior.index = i then
          detectLoop m date files f fuel (i + 1)
            (storeSet store (hashKeys (windowKeys f i m)) ⟨f.sid, i⟩)
        else
          match lookupFile files prior.sid with
          | none =>
              detectLoop m date files f fuel (i + 1)
                (storeSet store (hashKeys (windowKeys f i m)) ⟨f.sid, i⟩)
          | some fA =>
            if prior.index + m ≤ fA.numTokens ∧
                windowKeys fA prior.index m = windowKeys f i m ∧
                (fA.sid = f.sid → prior.index < i) then
              (⟨fA.sid, prior.index, prior.index + extendLen m fA f prior.index i,
                  f.sid, i, i + extendLen m fA f prior.index i, date⟩ ::
                (detectLoop m date files f fuel
                  (i + extendLen m fA f prior.index i + 1)
                  (storeSet store (hashKeys (windowKeys f i m)) ⟨f.sid, i⟩)).1,
               (detectLoop m date files f fuel
                  (i + extendLen m fA f prior.index i + 1)
                  (storeSet store (hashKeys (windowKeys f i m)) ⟨f.sid, i⟩)).2)
            else
              detectLoop m date files f fuel (i + 1)
                (storeSet store (hashKeys (windowKeys f i m)) ⟨f.sid, i⟩)
    else ([], store)

/-- Modelled from the spec: the multi-file driver's detection sweep — run
the matcher per file against the shared store, in the order the files are
supplied (§4.7, §5 ordering guarantees). -/
def detectAllAux (m date : Nat) (allFiles : List SourceFile) :
    List SourceFile → Store → List RawClone
  | [], _ => []
  | f :: rest, store =>
    (detectLoop m date allFiles f (f.numTokens + 1) 0 store).1 ++
      detectAllAux m date allFiles rest
        (detectLoop m date allFiles f (f.numTokens + 1) 0 store).2

/-- Modelled from the spec: the whole detection run over a supplied file
set, starting from a fresh store. -/
def detectAll (m date : Nat) (files : List SourceFile) : List RawClone :=
  detectAllAux m date files files emptyStore

/-- The file used by concrete test inputs: `n` identical one-character
tokens. -/
def repFile (sid n : Nat) : SourceFile :=
  ⟨sid, n, fun _ => "a"⟩

/-- Both sides of a clone cover identical mask-key sequences: side A covers
`m + (endA - startA)` tokens starting at `startA` in its file, and likewise
for side B. -/
def cloneSidesVerified (m : Nat) (files : List SourceFile)
    (c : RawClone) : Prop :=
  ∀ fA fB : SourceFile,
    lookupFile files c.sidA = some fA → lookupFile files c.sidB = some fB →
    windowKeys fA c.startA (m + (c.endA - c.startA)) =
      windowKeys fB c.startB (m + (c.endB - c.startB))

def setDate (t : Nat) (c : RawClone) : RawClone := { c with date := t }

def stripDate (c : RawClone) : RawClone := { c with date := 0 }

/-- Result of `OllamaService.analyzeSementicSimilarity`. -/
structure SemanticAnalysis where
  similarityScore : Nat
  confidence : Nat
  functionallyEquivalent : Bool
  reasoning : String
deriving DecidableEq, Repr, Inhabited

/-- Result of `OllamaService.generateRefactoringSuggestion`. -/
structure RefactoringSuggestion where
  type : String
  confidence : Nat
  description : String
  reasoning : String
deriving DecidableEq, Repr, Inhabited

/-- One side of an `IClone`, restricted to the fields the AI reporter
reads. -/
structure CloneLoc where
  sourceId : String
  startLine : Nat
  fragment : String
deriving DecidableEq, Repr, Inhabited

/-- The `IClone` fields the AI reporter reads. -/
structure IClone where
  format : String
  duplicationA : CloneLoc
  duplicationB : CloneLoc
deriving DecidableEq, Repr, Inhabited

/-- An `AIEnhancedClone extends IClone`: the base clone fields plus the
four optional AI fields (`semanticAnalysis`, `refactoringSuggestion`,
`explanation`, `aiProcessed`); `none` models an absent / `undefined`
JavaScript property. -/
structure AIEnhancedClone where
  base : IClone
  semanticAnalysis : Option SemanticAnalysis
  refactoringSuggestion : Option RefactoringSuggestion
  explanation : Option String
  aiProcessed : Option Bool
deriving DecidableEq, Repr, Inhabited

/-- Clone objects live on a heap (addresses are list indices); this keeps
JavaScript object identity observable, so that mutation of a copy can be
distinguished from mutation of the original payload object. -/
abbrev CloneHeap := List AIEnhancedClone

/-- The resolution condition of a reporter promise: either already
resolved, or resolving exactly when all `n` tracked background tasks
(numbered `0, …, n−1`) have settled. -/
inductive Completion where
  | resolvedNow : Completion
  | afterAllSettled : Nat → Completion
deriving DecidableEq, Repr

/-- Whether a promise with resolution condition `c` has resolved, given
which background tasks have settled. -/
def resolvedGiven (c : Completion) (settled : Nat → Bool) : Bool :=
  match c with
  | .resolvedNow => true
  | .afterAllSettled n => (List.range n).all settled

/-- The `IStatistic` fields the AI reporter reads (`statistic.formats`
key count, `statistic.total.lines`, `statistic.total.percentage`). -/
structure IStatistic where
  formatsCount : Nat
  totalLines : Nat
  totalPercentage : Nat
deriving DecidableEq, Repr, Inhabited

/-- Mutable fields of an `AIReporter` instance (part_001:47–56): the
collected clone addresses, the tracked background AI-processing tasks,
the success/failure counters, the statistic recorded by `report()`, and
the `completionPromise` returned by `waitForCompletion()`. -/
structure AIReporterState where
  clones : List Nat
  aiProcessingPromises : Nat
  processedCount : Nat
  failedCount : Nat
  statistic : Option IStatistic
  completionPromise : Completion
  reportCalled : Bool
deriving Repr

/-- The constructor's field initializers (part_001:50–56): no clones, no
tasks, `completionPromise = Promise.resolve()`. -/
def AIReporter.init : AIReporterState :=
  ⟨[], 0, 0, 0, none, .resolvedNow, false⟩

/-- Embeds `collectClone` (part_001:123–134): allocate the fresh shallow
copy `{ ...clone, aiProcessed: false }` at a new heap address, record that
address in `this.clones`, and track one background AI-processing task. -/
def collectClone (st : AIReporterState) (heap : CloneHeap) (p : Nat) :
    AIReporterState × CloneHeap :=
  ({ st with
      clones := st.clones ++ [heap.length],
      aiProcessingPromises := st.aiProcessingPromises + 1 },
   heap ++ [{ heap.getD p default with aiProcessed := some false }])

/-- An event payload as delivered to subscribers; `clone` is the address
of the payload's clone object, when the payload carries one. -/
structure IEventPayload where
  clone : Option Nat
deriving DecidableEq, Repr

/-- The `CLONE_FOUND` handler returned by `subscribe` (part_001:113–119):
collect the payload's clone when present, otherwise do nothing. -/
def handleCloneFound (payload : IEventPayload)
    (st : AIReporterState) (heap : CloneHeap) :
    AIReporterState × CloneHeap :=
  match payload.clone with
  | some p => collectClone st heap p
  | none => (st, heap)

/-- Embeds `subscribe` (part_001:110–121): the returned handler map has
the single key `CLONE_FOUND`. -/
def subscribe :
    String → Option (IEventPayload → AIReporterState → CloneHeap →
      AIReporterState × CloneHeap) :=
  fun ev => if ev = "CLONE_FOUND" then some handleCloneFound else none

/-- The Ollama call results available to one clone's background task;
`none` models an `undefined` result (each failed call is caught and
yields `undefined`). -/
structure OllamaOutcome where
  semantic : Option SemanticAnalysis
  refactoring : Option RefactoringSuggestion
  explanationText : Option String
deriving Repr

/-- Embeds `processCloneWithAI` (part_001:136–182) as its effect on the
heap: when Ollama is unavailable (`shouldUseAI` false) the task returns
without touching anything; otherwise each enabled option assigns its
result to the enhanced clone at address `q`, and `aiProcessed := true`
iff at least one AI call was made.  The function writes only through `q`;
the original payload clone is never an argument. -/
def processCloneWithAI (includeSemanticAnalysis : Bool)
    (includeRefactoringSuggestions : Bool) (includeExplanations : Bool)
    (ollamaAvailable : Bool) (res : OllamaOutcome)
    (heap : CloneHeap) (q : Nat) : CloneHeap :=
  if ollamaAvailable = false then heap
  else
    List.set heap q
      (aiCalls
        (List.getD heap q default))
where
  aiCalls (c0 : AIEnhancedClone) : AIEnhancedClone :=
    (fun c3 =>
      if includeSemanticAnalysis || includeRefactoringSuggestions ||
          includeExplanations then
        { c3 with aiProcessed := some true }
      else c3)
    ((fun c2 =>
        if includeExplanations then
          { c2 with explanation := res.explanationText }
        else c2)
      ((fun c1 =>
          if includeRefactoringSuggestions then
            { c1 with refactoringSuggestion := res.refactoring }
          else c1)
        (if includeSemanticAnalysis then
            { c0 with semanticAnalysis := res.semantic }
          else c0)))

/-- Embeds `report` (part_001:261–287): record the statistic and set
`completionPromise`.  With background tasks pending it becomes
`initializationPromise.then(processAllAITasks)`, which resolves only
after `Promise.allSettled` has seen every tracked task settle (the
`.catch` branch is dead code: the whole body of the Ollama setup is
wrapped in try/catch, so `initializationPromise` never rejects); with no
tasks it is `Promise.resolve()`. -/
def report (st : AIReporterState) (stat : IStatistic) : AIReporterState :=
  { st with
      statistic := some stat,
      reportCalled := true,
      completionPromise :=
        if st.aiProcessingPromises > 0 then
          Completion.afterAllSettled st.aiProcessingPromises
        else Completion.resolvedNow }

/-- Embeds `waitForCompletion` (part_001:290–293): returns
`completionPromise`. -/
def waitForCompletion (st : AIReporterState) : Completion :=
  st.completionPromise

/-- One shutdown action of the multi-file driver. -/
inductive DriverAction where
  | awaitHook : Nat → DriverAction
  | closeStore : DriverAction
deriving DecidableEq, Repr

/-- Modelled from the spec: the multi-file driver's shutdown (§4.7; the
`InFilesDetector` driver is not under `src/`): "when all files are done —
awaits any reporter that declares asynchronous completion, then calls
`close()` on the store".  `hooks i = true` iff reporter `i` implements
the optional `waitForCompletion` hook of `IReporter`
(reporter.interface.ts:9). -/
def driverShutdown (hooks : List Bool) : List DriverAction :=
  ((List.range hooks.length).filter (fun i => hooks.getD i false)).map
    DriverAction.awaitHook ++ [DriverAction.closeStore]

/-- Effects of one `finalize` run: whether the final report file and the
refactoring guide were written. -/
structure FinalizeEffects where
  reportWritten : Bool
  guideWritten : Bool
deriving DecidableEq, Repr

/-- Embeds `finalize` (part_001:357–381): return early when no statistic
was recorded; skip all writing when the failure rate
`failedCount / clones.length` exceeds `0.5` (the exact comparison
`2 * failedCount > clones.length`; at `clones.length = 0` JavaScript
computes `NaN > 0.5 = false`, and `2 * 0 > 0 = false` agrees); otherwise
write the final report when an output path is configured, and generate
the refactoring guide iff additionally `processedCount > 0`. -/
def finalize (outputConfigured : Bool) (st : AIReporterState) :
    FinalizeEffects :=
  match st.statistic with
  | none => ⟨false, false⟩
  | some _ =>
    if 2 * st.failedCount > st.clones.length then ⟨false, false⟩
    else ⟨outputConfigured,
          decide (0 < st.processedCount) && outputConfigured⟩

/-- One step of the `forEach` in `calculateRefactoringSummary`
(part_001:430–441): a clone with a suggestion of type `extract-function`
or `extract-class` counts as high priority, `create-module` as medium,
any other type as low; clones without a suggestion are not counted. -/
def summaryStep (acc : Nat × Nat × Nat) (clone : AIEnhancedClone) :
    Nat × Nat × Nat :=
  match clone.refactoringSuggestion with
  | none => acc
  | some sug =>
    if sug.type = "extract-function" ∨ sug.type = "extract-class" then
      (acc.1 + 1, acc.2.1, acc.2.2)
    else if sug.type = "create-module" then
      (acc.1, acc.2.1 + 1, acc.2.2)
    else
      (acc.1, acc.2.1, acc.2.2 + 1)

/-- The `refactoringSummary` record of an `AIReport`. -/
structure RefactoringSummary where
  highPriority : Nat
  mediumPriority : Nat
  lowPriority : Nat
  totalSuggestions : Nat
deriving DecidableEq, Repr

/-- Embeds `calculateRefactoringSummary` (part_001:425–449):
`totalSuggestions := highPriority + mediumPriority + lowPriority`. -/
def calculateRefactoringSummary (clones : List AIEnhancedClone) :
    RefactoringSummary :=
  ⟨(clones.foldl summaryStep (0, 0, 0)).1,
   (clones.foldl summaryStep (0, 0, 0)).2.1,
   (clones.foldl summaryStep (0, 0, 0)).2.2,
   (clones.foldl summaryStep (0, 0, 0)).1 +
     (clones.foldl summaryStep (0, 0, 0)).2.1 +
     (clones.foldl summaryStep (0, 0, 0)).2.2⟩

/-- A clone falls in the high-priority bucket. -/
def isHighPriority (c : AIEnhancedClone) : Bool :=
  match c.refactoringSuggestion with
  | none => false
  | some s => decide (s.type = "extract-function" ∨ s.type = "extract-class")

/-- A clone falls in the medium-priority bucket. -/
def isMediumPriority (c : AIEnhancedClone) : Bool :=
  match c.refactoringSuggestion with
  | none => false
  | some s =>
    decide (¬(s.type = "extract-function" ∨ s.type = "extract-class") ∧
      s.type = "create-module")

/-- A clone falls in the low-priority bucket. -/
def isLowPriority (c : AIEnhancedClone) : Bool :=
  match c.refactoringSuggestion with
  | none => false
  | some s =>
    decide (¬(s.type = "extract-function" ∨ s.type = "extract-class") ∧
      ¬ s.type = "create-module")

/-- The summary block of an `AIReport`. -/
structure AIReportSummary where
  totalClones : Nat
  totalFiles : Nat
  totalLines : Nat
  duplicatePercentage : Nat
  aiAnalyzedClones : Nat
deriving DecidableEq, Repr

/-- The `AIReport` shape produced by `generateReport` (part_001:27–45,
402–423). -/
structure AIReport where
  summary : AIReportSummary
  clones : List AIEnhancedClone
  refactoringSummary : RefactoringSummary
  recommendations : List String
  generatedAt : String
  ollamaModel : Option String
deriving Repr

/-- Embeds `generateRecommendations` (part_001:451–479); the message
texts are abbreviated (their interpolated numbers are immaterial here). -/
def generateRecommendations (stat : IStatistic) (rs : RefactoringSummary)
    (ollamaAvailable : Bool) : List String :=
  (if stat.totalPercentage > 10 then
      ["High duplication detected. Consider refactoring."]
    else []) ++
  (if rs.highPriority > 0 then
      ["High-priority refactoring opportunities identified."]
    else []) ++
  (if rs.totalSuggestions > 5 then
      ["Multiple refactoring opportunities detected. Consider addressing them incrementally."]
    else []) ++
  (if ollamaAvailable then []
    else ["Install Ollama and enable AI features for advanced analysis and refactoring suggestions."])

/-- Embeds `generateReport` (part_001:402–423) over the dereferenced
collected clones. -/
def generateReport (clones : List AIEnhancedClone) (stat : IStatistic)
    (generatedAt : String) (ollamaModel : Option String) : AIReport :=
  { summary :=
      ⟨clones.length, stat.formatsCount, stat.totalLines,
       stat.totalPercentage,
       (clones.filter (fun c => c.aiProcessed.getD false)).length⟩,
    clones := clones,
    refactoringSummary := calculateRefactoringSummary clones,
    recommendations :=
      generateRecommendations stat (calculateRefactoringSummary clones)
        ollamaModel.isSome,
    generatedAt := generatedAt,
    ollamaModel := ollamaModel }

/-- A sample AI-enhanced clone carrying an `extract-function`
suggestion. -/
def sampleClone : AIEnhancedClone :=
  { base := default, semanticAnalysis := none,
    refactoringSuggestion := some ⟨"extract-function", 1, "d", "r"⟩,
    explanation := none, aiProcessed := some true }

/-- Observable state of a `ProgressiveWriter`: the report file at
`outputPath` (`none` = the file does not exist), the pending debounced
updater (`pendingUpdate` timer), and `lastUpdate`. -/
structure PWState where
  fileContent : Option AIReport
  pendingUpdate : Option (AIReport → AIReport)
  lastUpdate : Nat

/-- Embeds `writeInitial` (progressive-writer.ts:29–33): write the report
immediately, creating the file. -/
def writeInitial (r : AIReport) (now : Nat) (st : PWState) : PWState :=
  { st with fileContent := some r, lastUpdate := now }

/-- Embeds `performUpdate` (progressive-writer.ts:69–90): if the file does
not exist, warn and return without writing — the update is skipped and the
file is never created; otherwise read the report, apply the updater, and
write it back.  All errors are caught, so the function is total. -/
def performUpdate (u : AIReport → AIReport) (now : Nat) (st : PWState) :
    PWState :=
  match st.fileContent with
  | none => st
  | some r => { st with fileContent := some (u r), lastUpdate := now }

/-- Embeds `updateReport` (progressive-writer.ts:38–53): cancel any
pending update (`clearTimeout`) and schedule `u` as the only pending
updater for the debounce window. -/
def updateReport (u : AIReport → AIReport) (st : PWState) : PWState :=
  { st with pendingUpdate := some u }

/-- The scheduled timeout firing (the callback at
progressive-writer.ts:49–52): perform the pending update, if any, then
clear `pendingUpdate`. -/
def fireTimer (now : Nat) (st : PWState) : PWState :=
  match st.pendingUpdate with
  | none => st
  | some u => { performUpdate u now st with pendingUpdate := none }

/-! ### Theorems -/

example :
    detectAll 1 0 [repFile 0 1, repFile 1 1] =
      [⟨0, 0, 0, 1, 0, 0, 0⟩] := by decide

theorem windowKeys_eq_iff {fA fB : SourceFile} {a b m : Nat} :
    windowKeys fA a m = windowKeys fB b m ↔
      ∀ t < m, fA.keys (a + t) = fB.keys (b + t) := by
  unfold windowKeys
  rw [List.map_eq_map_iff]
  constructor
  · intro h t ht
    exact h t (List.mem_range.mpr ht)
  · intro h t ht
    exact h t (List.mem_range.mp ht)

/-- If every window of width `m` at offsets `0, …, k` matches between the
two regions, the whole covered token ranges (of `m + k` tokens) match. -/
theorem covered_eq {fA fB : SourceFile} {pa pb : Nat} (m k : Nat) (hm : 0 < m)
    (h : ∀ j ≤ k, windowKeys fA (pa + j) m = windowKeys fB (pb + j) m) :
    windowKeys fA pa (m + k) = windowKeys fB pb (m + k) := by
  rw [windowKeys_eq_iff]
  intro t ht
  by_cases h1 : t < m
  · have h0 := (windowKeys_eq_iff.mp (h 0 (Nat.zero_le k))) t h1
    simpa using h0
  · push_neg at h1
    have hj : t - m + 1 ≤ k := by omega
    have hw := (windowKeys_eq_iff.mp (h (t - m + 1) hj)) (m - 1) (by omega)
    have e1 : pa + (t - m + 1) + (m - 1) = pa + t := by omega
    have e2 : pb + (t - m + 1) + (m - 1) = pb + t := by omega
    rwa [e1, e2] at hw

theorem extendFrom_verified {m : Nat} {fA fB : SourceFile} {pa pb : Nat} :
    ∀ (fuel k : Nat),
      (∀ j, 1 ≤ j → j ≤ k →
        windowKeys fA (pa + j) m = windowKeys fB (pb + j) m) →
      ∀ j, 1 ≤ j → j ≤ extendFrom m fA fB pa pb fuel k →
        windowKeys fA (pa + j) m = windowKeys fB (pb + j) m := by
  intro fuel
  induction fuel with
  | zero =>
    intro k hk j h1 h2
    exact hk j h1 (by simpa [extendFrom] using h2)
  | succ n ih =>
    intro k hk j h1 h2
    rw [extendFrom] at h2
    by_cases hx : extOk m fA fB pa pb (k + 1)
    · rw [if_pos hx] at h2
      refine ih (k + 1) ?_ j h1 h2
      intro j' hj1 hj2
      by_cases hlt : j' ≤ k
      · exact hk j' hj1 hlt
      · have : j' = k + 1 := by omega
        subst this
        exact hx.2.2.2.1
    · rw [if_neg hx] at h2
      exact hk j h1 h2

theorem extendFrom_samefile {m : Nat} {fA fB : SourceFile} {pa pb : Nat} :
    ∀ (fuel k : Nat), (fA.sid = fB.sid → pa + k < pb) →
      fA.sid = fB.sid → pa + extendFrom m fA fB pa pb fuel k < pb := by
  intro fuel
  induction fuel with
  | zero =>
    intro k hk
    simpa [extendFrom] using hk
  | succ n ih =>
    intro k hk
    rw [extendFrom]
    by_cases hx : extOk m fA fB pa pb (k + 1)
    · rw [if_pos hx]
      exact ih (k + 1) (fun hs => hx.2.2.2.2 hs)
    · rw [if_neg hx]
      exact hk

theorem extendLen_verified {m : Nat} {fA fB : SourceFile} {pa pb : Nat}
    (j : Nat) (h1 : 1 ≤ j) (h2 : j ≤ extendLen m fA fB pa pb) :
    windowKeys fA (pa + j) m = windowKeys fB (pb + j) m :=
  extendFrom_verified fB.numTokens 0
    (fun _ hj1 hj2 => (Nat.not_succ_le_zero 0 (hj1.trans hj2)).elim) j h1 h2

theorem extendLen_samefile {m : Nat} {fA fB : SourceFile} {pa pb : Nat}
    (h : fA.sid = fB.sid → pa < pb) :
    fA.sid = fB.sid → pa + extendLen m fA fB pa pb < pb :=
  extendFrom_samefile fB.numTokens 0 (by simpa using h)

/-- Every clone emitted by the pass over file `f` arises from a verified,
extension-maximal candidate: this lemma turns any property of such
candidates into a property of all emitted clones. -/
theorem detectLoop_emitted (m date : Nat) (files : List SourceFile)
    (f : SourceFile) (P : RawClone → Prop)
    (hP : ∀ (i : Nat) (prior : StoreRec) (fA : SourceFile),
        lookupFile files prior.sid = some fA →
        prior.index + m ≤ fA.numTokens →
        windowKeys fA prior.index m = windowKeys f i m →
        (fA.sid = f.sid → prior.index < i) →
        P ⟨fA.sid, prior.index, prior.index + extendLen m fA f prior.index i,
           f.sid, i, i + extendLen m fA f prior.index i, date⟩) :
    ∀ (fuel i : Nat) (store : Store),
      ∀ c ∈ (detectLoop m date files f fuel i store).1, P c := by
  intro fuel
  induction fuel with
  | zero =>
    intro i store c hc
    simp [detectLoop] at hc
  | succ n ih =>
    intro i store c hc
    rw [detectLoop] at hc
    by_cases hb : i + m ≤ f.numTokens
    · rw [if_pos hb] at hc
      rcases hs : store (hashKeys (windowKeys f i m)) with _ | prior
      · simp only [hs] at hc
        exact ih _ _ c hc
      · simp only [hs] at hc
        by_cases hsame : prior.sid = f.sid ∧ prior.index = i
        · rw [if_pos hsame] at hc
          exact ih _ _ c hc
        · rw [if_neg hsame] at hc
          rcases hl : lookupFile files prior.sid with _ | fA
          · simp only [hl] at hc
            exact ih _ _ c hc
          · simp only [hl] at hc
            by_cases hv : prior.index + m ≤ fA.numTokens ∧
                windowKeys fA prior.index m = windowKeys f i m ∧
                (fA.sid = f.sid → prior.index < i)
            · rw [if_pos hv] at hc
              rcases List.mem_cons.mp hc with hceq | hcrest
              · subst hceq
                exact hP i prior fA hl hv.1 hv.2.1 hv.2.2
              · exact ih _ _ c hcrest
            · rw [if_neg hv] at hc
              exact ih _ _ c hc
    · rw [if_neg hb] at hc
      simp at hc

theorem detectAllAux_emitted (m date : Nat) (allFiles : List SourceFile)
    (P : SourceFile → RawClone → Prop)
    (hP : ∀ f ∈ allFiles, ∀ (i : Nat) (prior : StoreRec) (fA : SourceFile),
        lookupFile allFiles prior.sid = some fA →
        prior.index + m ≤ fA.numTokens →
        windowKeys fA prior.index m = windowKeys f i m →
        (fA.sid = f.sid → prior.index < i) →
        P f ⟨fA.sid, prior.index, prior.index + extendLen m fA f prior.index i,
             f.sid, i, i + extendLen m fA f prior.index i, date⟩) :
    ∀ (fs : List SourceFile), (∀ f ∈ fs, f ∈ allFiles) →
      ∀ (store : Store), ∀ c ∈ detectAllAux m date allFiles fs store,
        ∃ f ∈ fs, P f c := by
  intro fs
  induction fs with
  | nil =>
    intro _ store c hc
    simp [detectAllAux] at hc
  | cons f rest ih =>
    intro hmem store c hc
    rw [detectAllAux] at hc
    rcases List.mem_append.mp hc with hc1 | hc2
    · refine ⟨f, List.mem_cons_self f rest, ?_⟩
      exact detectLoop_emitted m date allFiles f (P f)
        (hP f (hmem f (List.mem_cons_self f rest))) _ _ _ c hc1
    · rcases ih (fun g hg => hmem g (List.mem_cons_of_mem f hg)) _ c hc2 with
        ⟨g, hg, hgP⟩
      exact ⟨g, List.mem_cons_of_mem f hg, hgP⟩

theorem lookupFile_self {files : List SourceFile}
    (hnd : (files.map SourceFile.sid).Nodup) :
    ∀ f ∈ files, lookupFile files f.sid = some f := by
  induction files with
  | nil =>
    intro f hf
    simp at hf
  | cons g rest ih =>
    rw [List.map_cons, List.nodup_cons] at hnd
    intro f hf
    rcases List.mem_cons.mp hf with rfl | hf'
    · simp [lookupFile, List.find?]
    · have hne : (g.sid == f.sid) = false := by
        rw [beq_eq_false_iff_ne]
        intro he
        exact hnd.1 (he ▸ List.mem_map_of_mem SourceFile.sid hf')
      have hrec := ih hnd.2 f hf'
      simpa [lookupFile, List.find?, hne] using hrec

/-- C3: for every clone emitted by the matcher, the sequence of mask
keys covered by side A equals, token by token, the sequence covered by
side B; the advisory hash alone never admits a match, because the matcher
verifies the initial window and every extension window token-by-token. -/
theorem C3_emitted_clone_mask_keys_equal (m date : Nat)
    (files : List SourceFile) (hm : 0 < m)
    (hnd : (files.map SourceFile.sid).Nodup) :
    ∀ c ∈ detectAll m date files, cloneSidesVerified m files c := by
  have hP : ∀ f ∈ files, ∀ (i : Nat) (prior : StoreRec) (fA : SourceFile),
      lookupFile files prior.sid = some fA →
      prior.index + m ≤ fA.numTokens →
      windowKeys fA prior.index m = windowKeys f i m →
      (fA.sid = f.sid → prior.index < i) →
      cloneSidesVerified m files
        ⟨fA.sid, prior.index, prior.index + extendLen m fA f prior.index i,
         f.sid, i, i + extendLen m fA f prior.index i, date⟩ := by
    intro f hf i prior fA hl hbound hver hsf
    intro fA' fB' hA' hB'
    have hsidA : fA.sid = prior.sid := by
      have hfind := List.find?_some hl
      exact beq_iff_eq.mp hfind
    have hA : lookupFile files fA.sid = some fA := by
      rw [hsidA]; exact hl
    have hfA' : fA' = fA := Option.some_inj.mp (hA'.symm.trans hA)
    have hB : lookupFile files f.sid = some f := lookupFile_self hnd f hf
    have hfB' : fB' = f := Option.some_inj.mp (hB'.symm.trans hB)
    subst hfA'
    subst hfB'
    simp only [Nat.add_sub_cancel_left]
    refine covered_eq m _ hm ?_
    intro j hj
    rcases Nat.eq_zero_or_pos j with rfl | hj1
    · simpa using hver
    · exact extendLen_verified j hj1 hj
  intro c hc
  rcases detectAllAux_emitted m date files
      (fun _ c => cloneSidesVerified m files c) hP files (fun _ h => h)
      emptyStore c hc with ⟨f, _, hfP⟩
  exact hfP

theorem C3_witness :
    cloneSidesVerified 1 [repFile 0 1, repFile 1 1] ⟨0, 0, 0, 1, 0, 0, 0⟩ :=
  C3_emitted_clone_mask_keys_equal 1 0 [repFile 0 1, repFile 1 1]
    (by decide) (by decide) ⟨0, 0, 0, 1, 0, 0, 0⟩ (by decide)

/-- C5 counterexample: on a single file of three identical tokens with
window width 2, the matcher (as specified: reject only extensions with
B-start index ≤ A-end index) emits a same-file clone whose covered token
ranges `[startA, endA + 2)` and `[startB, endB + 2)` overlap: the frame
windows share `minTokens − 1` tokens, so index-disjointness does not give
byte-range disjointness. -/
theorem C5_counterexample :
    detectAll 2 0 [repFile 0 3] = [⟨0, 0, 0, 0, 1, 1, 0⟩] ∧
    (detectAll 2 0 [repFile 0 3]).any
      (fun c => c.sidA == c.sidB && c.startB < c.endA + 2) = true := by
  exact ⟨by decide, by decide⟩

/-- C5 (amended): for every emitted clone whose two sides lie in the
same file, the frame-index ranges are disjoint — the B region's start index
strictly exceeds the A region's end index — because the matcher rejects
same-file extensions violating this; the covered token ranges may still
overlap by up to `minTokens − 1` tokens. -/
theorem C5_same_file_frame_ranges_disjoint (m date : Nat)
    (files : List SourceFile) :
    ∀ c ∈ detectAll m date files, c.sidA = c.sidB → c.endA < c.startB := by
  have hP : ∀ f ∈ files, ∀ (i : Nat) (prior : StoreRec) (fA : SourceFile),
      lookupFile files prior.sid = some fA →
      prior.index + m ≤ fA.numTokens →
      windowKeys fA prior.index m = windowKeys f i m →
      (fA.sid = f.sid → prior.index < i) →
      (fun c : RawClone => c.sidA = c.sidB → c.endA < c.startB)
        ⟨fA.sid, prior.index, prior.index + extendLen m fA f prior.index i,
         f.sid, i, i + extendLen m fA f prior.index i, date⟩ := by
    intro f _ i prior fA _ _ _ hsf heq
    exact extendLen_samefile hsf heq
  intro c hc
  rcases detectAllAux_emitted m date files
      (fun _ c => c.sidA = c.sidB → c.endA < c.startB) hP files (fun _ h => h)
      emptyStore c hc with ⟨f, _, hfP⟩
  exact hfP

theorem C5_amended_witness :
    RawClone.endA ⟨0, 0, 0, 0, 1, 1, 0⟩ < RawClone.startB ⟨0, 0, 0, 0, 1, 1, 0⟩ :=
  C5_same_file_frame_ranges_disjoint 2 0 [repFile 0 3]
    ⟨0, 0, 0, 0, 1, 1, 0⟩ (by decide) rfl

/-- During one file's pass, the Y-side start indices of emitted clones are
strictly increasing (the outer scan jumps past each match), every emitted
clone's B side is the current file, and no clone starts before the current
scan position. -/
theorem detectLoop_mono (m date : Nat) (files : List SourceFile)
    (f : SourceFile) :
    ∀ (fuel i : Nat) (store : Store),
      List.Chain' (· < ·)
        ((detectLoop m date files f fuel i store).1.map RawClone.startB) ∧
      ∀ c ∈ (detectLoop m date files f fuel i store).1,
        c.sidB = f.sid ∧ i ≤ c.startB := by
  intro fuel
  induction fuel with
  | zero =>
    intro i store
    refine ⟨by simp [detectLoop], fun c hc => ?_⟩
    simp [detectLoop] at hc
  | succ n ih =>
    intro i store
    by_cases hb : i + m ≤ f.numTokens
    · rw [detectLoop, if_pos hb]
      rcases hs : store (hashKeys (windowKeys f i m)) with _ | prior
      · simp only [hs]
        refine ⟨(ih _ _).1, fun c hc => ⟨((ih _ _).2 c hc).1, ?_⟩⟩
        have h2 := ((ih _ _).2 c hc).2
        omega
      · simp only [hs]
        by_cases hsame : prior.sid = f.sid ∧ prior.index = i
        · rw [if_pos hsame]
          refine ⟨(ih _ _).1, fun c hc => ⟨((ih _ _).2 c hc).1, ?_⟩⟩
          have h2 := ((ih _ _).2 c hc).2
          omega
        · rw [if_neg hsame]
          rcases hl : lookupFile files prior.sid with _ | fA
          · simp only [hl]
            refine ⟨(ih _ _).1, fun c hc => ⟨((ih _ _).2 c hc).1, ?_⟩⟩
            have h2 := ((ih _ _).2 c hc).2
            omega
          · simp only [hl]
            by_cases hv : prior.index + m ≤ fA.numTokens ∧
                windowKeys fA prior.index m = windowKeys f i m ∧
                (fA.sid = f.sid → prior.index < i)
            · rw [if_pos hv]
              constructor
              · rw [List.map_cons, List.chain'_cons']
                refine ⟨?_, (ih _ _).1⟩
                intro y hy
                rcases List.mem_map.mp (List.mem_of_mem_head? hy) with
                  ⟨c', hc', rfl⟩
                have h2 := ((ih _ _).2 c' hc').2
                show i < c'.startB
                omega
              · intro c hc
                rcases List.mem_cons.mp hc with rfl | hcrest
                · exact ⟨rfl, le_refl i⟩
                · refine ⟨((ih _ _).2 c hcrest).1, ?_⟩
                  have h2 := ((ih _ _).2 c hcrest).2
                  omega
            · rw [if_neg hv]
              refine ⟨(ih _ _).1, fun c hc => ⟨((ih _ _).2 c hc).1, ?_⟩⟩
              have h2 := ((ih _ _).2 c hc).2
              omega
    · rw [detectLoop, if_neg hb]
      refine ⟨by simp, fun c hc => ?_⟩
      simp at hc

/-- Across the run, the `(file, Y-side start index)` emission points of
raw clones are pairwise distinct, and every clone's B side belongs to one
of the processed files. -/
theorem detectAllAux_pairs_nodup (m date : Nat) (allFiles : List SourceFile) :
    ∀ (fs : List SourceFile), (fs.map SourceFile.sid).Nodup →
      ∀ store : Store,
        ((detectAllAux m date allFiles fs store).map
            (fun c => (c.sidB, c.startB))).Nodup ∧
        ∀ c ∈ detectAllAux m date allFiles fs store,
          c.sidB ∈ fs.map SourceFile.sid := by
  intro fs
  induction fs with
  | nil =>
    intro _ store
    refine ⟨by simp [detectAllAux], fun c hc => ?_⟩
    simp [detectAllAux] at hc
  | cons f rest ih =>
    intro hnd store
    rw [List.map_cons, List.nodup_cons] at hnd
    have hloop := detectLoop_mono m date allFiles f (f.numTokens + 1) 0 store
    have hrec :=
      ih hnd.2 (detectLoop m date allFiles f (f.numTokens + 1) 0 store).2
    constructor
    · rw [detectAllAux, List.map_append, List.nodup_append]
      refine ⟨?_, hrec.1, ?_⟩
      · have hpw := List.chain'_iff_pairwise.mp hloop.1
        rw [List.pairwise_map] at hpw
        rw [List.Nodup, List.pairwise_map]
        refine hpw.imp ?_
        intro a b hlt he
        have hsnd : a.startB = b.startB := congrArg Prod.snd he
        omega
      · intro p hp1 hp2
        rcases List.mem_map.mp hp1 with ⟨c1, hc1, rfl⟩
        rcases List.mem_map.mp hp2 with ⟨c2, hc2, hpeq⟩
        have h1 : c1.sidB = f.sid := (hloop.2 c1 hc1).1
        have h2 : c2.sidB ∈ rest.map SourceFile.sid := hrec.2 c2 hc2
        have hfst : c2.sidB = c1.sidB := congrArg Prod.fst hpeq
        rw [hfst, h1] at h2
        exact hnd.1 h2
    · intro c hc
      rw [detectAllAux] at hc
      rw [List.map_cons]
      rcases List.mem_append.mp hc with hc1 | hc2
      · rw [← (hloop.2 c hc1).1]
        exact List.mem_cons_self _ _
      · exact List.mem_cons_of_mem _ (hrec.2 c hc2)

/-- C2 counterexample: three files of one identical token each, window
width 1.  The regions of files 0 and 2 are a maximal pair of identical
regions (file 0 processed before file 2), yet no raw clone pairing file 0
with file 2 is ever emitted: the store's last-writer-wins record was
overwritten by file 1, so the claimed "no missed maximal pair" fails. -/
theorem C2_counterexample :
    windowKeys (repFile 0 1) 0 1 = windowKeys (repFile 2 1) 0 1 ∧
    detectAll 1 0 [repFile 0 1, repFile 1 1, repFile 2 1] =
      [⟨0, 0, 0, 1, 0, 0, 0⟩, ⟨1, 0, 0, 2, 0, 0, 0⟩] ∧
    (detectAll 1 0 [repFile 0 1, repFile 1 1, repFile 2 1]).filter
      (fun c => c.sidA == 0 && c.sidB == 2) = [] :=
  ⟨rfl, by decide, by decide⟩

/-- C2 (amended): each raw clone is emitted at the moment the Y-side
frame at its match start is processed, and the emission points
`(Y-file, Y-start-index)` are pairwise distinct — no clone is emitted
twice.  Maximal pairs whose X-side occurrence has been superseded in the
last-writer-wins store by a later occurrence of the same windows are not
emitted at all. -/
theorem C2_no_duplicate_emission (m date : Nat) (files : List SourceFile)
    (hnd : (files.map SourceFile.sid).Nodup) :
    ((detectAll m date files).map (fun c => (c.sidB, c.startB))).Nodup :=
  (detectAllAux_pairs_nodup m date files files hnd emptyStore).1

theorem C2_amended_witness :
    ((detectAll 1 0 [repFile 0 1, repFile 1 1, repFile 2 1]).map
      (fun c => (c.sidB, c.startB))).Nodup :=
  C2_no_duplicate_emission 1 0 [repFile 0 1, repFile 1 1, repFile 2 1]
    (by decide)

/-- The run date flows only into each clone's `date` field: a pass at date
`t` is the date-0 pass with `date := t` stamped on every clone, and the
store evolution is date-independent. -/
theorem detectLoop_date (m t date0 : Nat) (files : List SourceFile)
    (f : SourceFile) :
    ∀ (fuel i : Nat) (store : Store),
      detectLoop m t files f fuel i store =
        ((detectLoop m date0 files f fuel i store).1.map (setDate t),
         (detectLoop m date0 files f fuel i store).2) := by
  intro fuel
  induction fuel with
  | zero =>
    intro i store
    simp [detectLoop]
  | succ n ih =>
    intro i store
    by_cases hb : i + m ≤ f.numTokens
    · rw [detectLoop, detectLoop, if_pos hb, if_pos hb]
      rcases hs : store (hashKeys (windowKeys f i m)) with _ | prior
      · simp only [hs]
        exact ih _ _
      · simp only [hs]
        by_cases hsame : prior.sid = f.sid ∧ prior.index = i
        · rw [if_pos hsame, if_pos hsame]
          exact ih _ _
        · rw [if_neg hsame, if_neg hsame]
          rcases hl : lookupFile files prior.sid with _ | fA
          · simp only [hl]
            exact ih _ _
          · simp only [hl]
            by_cases hv : prior.index + m ≤ fA.numTokens ∧
                windowKeys fA prior.index m = windowKeys f i m ∧
                (fA.sid = f.sid → prior.index < i)
            · rw [if_pos hv, if_pos hv]
              rw [ih _ _, List.map_cons]
              exact rfl
            · rw [if_neg hv, if_neg hv]
              exact ih _ _
    · rw [detectLoop, detectLoop, if_neg hb, if_neg hb]
      simp

theorem detectAllAux_date (m t date0 : Nat) (allFiles : List SourceFile) :
    ∀ (fs : List SourceFile) (store : Store),
      detectAllAux m t allFiles fs store =
        (detectAllAux m date0 allFiles fs store).map (setDate t) := by
  intro fs
  induction fs with
  | nil =>
    intro store
    simp [detectAllAux]
  | cons f rest ih =>
    intro store
    rw [detectAllAux, detectAllAux, List.map_append,
      detectLoop_date m t date0 allFiles f, ih]

/-- C6: two runs of the detection pipeline over the same file set and
configuration, each from a fresh store, produce identical clone sets up to
the `foundDate` stamped on each clone. -/
theorem C6_determinism_modulo_found_date (m t1 t2 : Nat)
    (files : List SourceFile) :
    (detectAll m t1 files).map stripDate =
      (detectAll m t2 files).map stripDate := by
  unfold detectAll
  rw [detectAllAux_date m t1 0 files files emptyStore,
    detectAllAux_date m t2 0 files files emptyStore,
    List.map_map, List.map_map]
  rfl

theorem cloneHeap_getD_append {heap : CloneHeap} {x : AIEnhancedClone}
    {a : Nat} (ha : a ≠ heap.length) :
    (heap ++ [x]).getD a default = heap.getD a default := by
  by_cases hlt : a < heap.length
  · simp [List.getD, List.getElem?_append, hlt]
  · have h1 : heap.length ≤ a := by omega
    have h2 : (heap ++ [x])[a]? = none := by
      rw [List.getElem?_eq_none]
      simp only [List.length_append, List.length_cons, List.length_nil]
      omega
    have h3 : heap[a]? = none := List.getElem?_eq_none h1
    simp [List.getD, h2, h3]

theorem cloneHeap_getD_set_ne {heap : CloneHeap} {x : AIEnhancedClone}
    {q a : Nat} (ha : q ≠ a) :
    (heap.set q x).getD a default = heap.getD a default := by
  simp [List.getD, List.getElem?_set_ne ha]

/-- C1: the driver awaits every reporter implementing the optional
`waitForCompletion` hook before the final `close()` of the store; after
`report()` on an `AIReporter` that collected background AI tasks, the
promise returned by `waitForCompletion()` resolves only once *all* tracked
tasks have settled; and it is already resolved when no clone was ever
collected, or when `report()` was never called (the constructor
initializes `completionPromise = Promise.resolve()` and `collectClone`
does not touch it). -/
theorem C1_driver_awaits_and_completion (hooks : List Bool) (i : Nat)
    (st : AIReporterState) (stat : IStatistic) (settled : Nat → Bool)
    (hi : i < hooks.length) (hhook : hooks.getD i false = true) :
    DriverAction.awaitHook i ∈ (driverShutdown hooks).dropLast ∧
    (driverShutdown hooks).getLast? = some DriverAction.closeStore ∧
    (resolvedGiven (waitForCompletion (report st stat)) settled = true →
      ∀ t < st.aiProcessingPromises, settled t = true) ∧
    (st.aiProcessingPromises = 0 →
      waitForCompletion (report st stat) = Completion.resolvedNow) ∧
    waitForCompletion AIReporter.init = Completion.resolvedNow ∧
    (∀ (heap : CloneHeap) (p : Nat),
      waitForCompletion (collectClone st heap p).1 = waitForCompletion st) := by
  refine ⟨?_, ?_, ?_, ?_, rfl, fun _ _ => rfl⟩
  · rw [driverShutdown, List.dropLast_concat]
    exact List.mem_map_of_mem DriverAction.awaitHook
      (List.mem_filter.mpr ⟨List.mem_range.mpr hi, hhook⟩)
  · rw [driverShutdown]
    exact List.getLast?_concat _
  · intro hres t ht
    rw [waitForCompletion, report] at hres
    have hpos : st.aiProcessingPromises > 0 := by omega
    rw [if_pos hpos] at hres
    rw [resolvedGiven] at hres
    exact List.all_eq_true.mp hres t (List.mem_range.mpr ht)
  · intro hz
    rw [waitForCompletion, report, if_neg (by omega)]

theorem C1_witness :
    DriverAction.awaitHook 0 ∈ (driverShutdown [true, false]).dropLast ∧
    (driverShutdown [true, false]).getLast? = some DriverAction.closeStore ∧
    (resolvedGiven
        (waitForCompletion
          (report ⟨[0, 1], 2, 0, 0, none, .resolvedNow, false⟩ ⟨1, 10, 0⟩))
        (fun _ => true) = true →
      ∀ t < 2, (fun _ => true) t = true) ∧
    ((2 : Nat) = 0 →
      waitForCompletion
          (report ⟨[0, 1], 2, 0, 0, none, .resolvedNow, false⟩ ⟨1, 10, 0⟩) =
        Completion.resolvedNow) ∧
    waitForCompletion AIReporter.init = Completion.resolvedNow ∧
    (∀ (heap : CloneHeap) (p : Nat),
      waitForCompletion
          (collectClone ⟨[0, 1], 2, 0, 0, none, .resolvedNow, false⟩ heap p).1 =
        waitForCompletion ⟨[0, 1], 2, 0, 0, none, .resolvedNow, false⟩) :=
  C1_driver_awaits_and_completion [true, false] 0
    ⟨[0, 1], 2, 0, 0, none, .resolvedNow, false⟩ ⟨1, 10, 0⟩ (fun _ => true)
    (by decide) (by decide)

/-- C4: `collectClone` stores a fresh copy (at a fresh heap address) of
the payload clone, copying its base fields, and the background AI
processing writes its enhancements only through that fresh address: every
other address — in particular the original payload clone's — holds exactly
the object it held before. -/
theorem C4_payload_clone_not_mutated (st : AIReporterState)
    (heap : CloneHeap) (p : Nat) (incSem incRef incExp avail : Bool)
    (res : OllamaOutcome) (_hp : p < heap.length) :
    (collectClone st heap p).1.clones = st.clones ++ [heap.length] ∧
    ((collectClone st heap p).2.getD heap.length default).base =
      (heap.getD p default).base ∧
    ∀ a, a ≠ heap.length →
      (processCloneWithAI incSem incRef incExp avail res
          (collectClone st heap p).2 heap.length).getD a default =
        heap.getD a default := by
  refine ⟨rfl, ?_, ?_⟩
  · show ((heap ++ [_]).getD heap.length default).base = _
    simp [List.getD, List.getElem?_concat_length]
  · intro a ha
    rw [processCloneWithAI]
    by_cases hav : avail = false
    · rw [if_pos hav]
      exact cloneHeap_getD_append ha
    · rw [if_neg hav]
      rw [cloneHeap_getD_set_ne (Ne.symm ha)]
      exact cloneHeap_getD_append ha

theorem C4_witness :
    (collectClone AIReporter.init [default] 0).1.clones = [] ++ [1] ∧
    ((collectClone AIReporter.init [default] 0).2.getD 1 default).base =
      (([default] : CloneHeap).getD 0 default).base ∧
    (∀ a, a ≠ 1 →
      (processCloneWithAI true true false true ⟨none, none, none⟩
          (collectClone AIReporter.init [default] 0).2 1).getD a default =
        ([default] : CloneHeap).getD a default) :=
  C4_payload_clone_not_mutated AIReporter.init [default] 0 true true false
    true ⟨none, none, none⟩ (by decide)

/-- C7: `subscribe()` returns a handler map whose only key is
`CLONE_FOUND`, and the handler appends a clone to the reporter's
collection iff the payload carries a `clone` field. -/
theorem C7_subscribe_single_key (ev : String) (payload : IEventPayload)
    (st : AIReporterState) (heap : CloneHeap) :
    ((subscribe ev).isSome ↔ ev = "CLONE_FOUND") ∧
    (∀ p, payload.clone = some p →
      (handleCloneFound payload st heap).1.clones =
        st.clones ++ [heap.length]) ∧
    (payload.clone = none →
      handleCloneFound payload st heap = (st, heap)) := by
  refine ⟨?_, ?_, ?_⟩
  · constructor
    · intro h
      by_contra hne
      rw [subscribe, if_neg hne] at h
      simp at h
    · intro h
      rw [subscribe, if_pos h]
      simp
  · intro p hp
    rw [handleCloneFound, hp]
    rfl
  · intro hp
    rw [handleCloneFound, hp]

theorem C7_witness :
    ((subscribe "CLONE_FOUND").isSome ↔
      ("CLONE_FOUND" : String) = "CLONE_FOUND") ∧
    ((subscribe "END").isSome ↔ ("END" : String) = "CLONE_FOUND") ∧
    (handleCloneFound ⟨some 0⟩ AIReporter.init [default]).1.clones =
      [] ++ [1] ∧
    handleCloneFound ⟨none⟩ AIReporter.init [default] =
      (AIReporter.init, [default]) :=
  ⟨(C7_subscribe_single_key "CLONE_FOUND" ⟨some 0⟩ AIReporter.init
      [default]).1,
   (C7_subscribe_single_key "END" ⟨some 0⟩ AIReporter.init [default]).1,
   (C7_subscribe_single_key "CLONE_FOUND" ⟨some 0⟩ AIReporter.init
      [default]).2.1 0 rfl,
   (C7_subscribe_single_key "CLONE_FOUND" ⟨none⟩ AIReporter.init
      [default]).2.2 rfl⟩

/-- C8: when the failed AI tasks exceed half of the collected clones,
`finalize` writes neither the final report nor the refactoring guide;
otherwise, with an output path configured, the final report is written,
and the refactoring guide is generated iff at least one clone was
successfully AI-processed. -/
theorem C8_finalize_failure_gate (outputConfigured : Bool)
    (st : AIReporterState) (stat : IStatistic)
    (hstat : st.statistic = some stat) :
    (2 * st.failedCount > st.clones.length →
      finalize outputConfigured st = ⟨false, false⟩) ∧
    (¬ 2 * st.failedCount > st.clones.length →
      (finalize outputConfigured st).reportWritten = outputConfigured ∧
      ((finalize outputConfigured st).guideWritten = true ↔
        0 < st.processedCount ∧ outputConfigured = true)) := by
  constructor
  · intro hgt
    simp [finalize, hstat, hgt]
  · intro hle
    simp [finalize, hstat, hle]

theorem C8_witness :
    (2 * 3 > 4 →
      finalize true ⟨[0, 1, 2, 3], 4, 1, 3, some ⟨1, 10, 0⟩, .resolvedNow,
        true⟩ = ⟨false, false⟩) ∧
    (¬ 2 * 3 > 4 →
      (finalize true ⟨[0, 1, 2, 3], 4, 1, 3, some ⟨1, 10, 0⟩, .resolvedNow,
        true⟩).reportWritten = true ∧
      ((finalize true ⟨[0, 1, 2, 3], 4, 1, 3, some ⟨1, 10, 0⟩, .resolvedNow,
        true⟩).guideWritten = true ↔ 0 < 1 ∧ true = true)) :=
  C8_finalize_failure_gate true
    ⟨[0, 1, 2, 3], 4, 1, 3, some ⟨1, 10, 0⟩, .resolvedNow, true⟩
    ⟨1, 10, 0⟩ rfl

theorem foldl_summaryStep (clones : List AIEnhancedClone) :
    ∀ acc : Nat × Nat × Nat,
      clones.foldl summaryStep acc =
        (acc.1 + clones.countP isHighPriority,
         acc.2.1 + clones.countP isMediumPriority,
         acc.2.2 + clones.countP isLowPriority) := by
  induction clones with
  | nil =>
    intro acc
    simp [List.countP_nil]
  | cons c cs ih =>
    intro acc
    rw [List.foldl_cons, ih (summaryStep acc c)]
    rw [List.countP_cons, List.countP_cons, List.countP_cons]
    rcases hsug : c.refactoringSuggestion with _ | s
    · have h1 : isHighPriority c = false := by simp [isHighPriority, hsug]
      have h2 : isMediumPriority c = false := by simp [isMediumPriority, hsug]
      have h3 : isLowPriority c = false := by simp [isLowPriority, hsug]
      simp only [summaryStep, hsug, h1, h2, h3]
      simp
    · by_cases hhi : s.type = "extract-function" ∨ s.type = "extract-class"
      · have h1 : isHighPriority c = true := by
          simp [isHighPriority, hsug, hhi]
        have h2 : isMediumPriority c = false := by
          simp [isMediumPriority, hsug, hhi]
        have h3 : isLowPriority c = false := by
          simp [isLowPriority, hsug, hhi]
        simp only [summaryStep, hsug, if_pos hhi, h1, h2, h3]
        simp
        omega
      · by_cases hmed : s.type = "create-module"
        · have h1 : isHighPriority c = false := by
            simp [isHighPriority, hsug, hhi]
          have h2 : isMediumPriority c = true := by
            simp [isMediumPriority, hsug, hhi, hmed]
          have h3 : isLowPriority c = false := by
            simp [isLowPriority, hsug, hmed]
          simp only [summaryStep, hsug, if_neg hhi, if_pos hmed, h1, h2, h3]
          simp
          omega
        · have h1 : isHighPriority c = false := by
            simp [isHighPriority, hsug, hhi]
          have h2 : isMediumPriority c = false := by
            simp [isMediumPriority, hsug, hmed]
          have h3 : isLowPriority c = true := by
            simp [isLowPriority, hsug, hhi, hmed]
          simp only [summaryStep, hsug, if_neg hhi, if_neg hmed, h1, h2, h3]
          simp
          omega

theorem countP_priority_partition (clones : List AIEnhancedClone) :
    clones.countP isHighPriority + clones.countP isMediumPriority +
      clones.countP isLowPriority =
      clones.countP (fun c => c.refactoringSuggestion.isSome) := by
  induction clones with
  | nil => simp
  | cons c cs ih =>
    rw [List.countP_cons, List.countP_cons, List.countP_cons,
      List.countP_cons]
    rcases hsug : c.refactoringSuggestion with _ | s
    · simp only [isHighPriority, isMediumPriority, isLowPriority, hsug]
      simp
      omega
    · by_cases hhi : s.type = "extract-function" ∨ s.type = "extract-class"
      · simp only [isHighPriority, isMediumPriority, isLowPriority, hsug]
        simp [hhi]
        omega
      · by_cases hmed : s.type = "create-module"
        · simp only [isHighPriority, isMediumPriority, isLowPriority, hsug]
          simp [hhi, hmed]
          omega
        · simp only [isHighPriority, isMediumPriority, isLowPriority, hsug]
          simp [hhi, hmed]
          omega

/-- C9: in every report produced by `generateReport`,
`refactoringSummary.totalSuggestions` equals
`highPriority + mediumPriority + lowPriority`, equals the number of
collected clones carrying a `refactoringSuggestion`, and each such clone
is counted in exactly one bucket determined by its suggestion type:
`extract-function` / `extract-class` in high, `create-module` in medium,
every other type in low. -/
theorem C9_refactoring_summary_partition (clones : List AIEnhancedClone)
    (stat : IStatistic) (generatedAt : String) (om : Option String) :
    (generateReport clones stat generatedAt om).refactoringSummary.totalSuggestions =
      (generateReport clones stat generatedAt om).refactoringSummary.highPriority +
      (generateReport clones stat generatedAt om).refactoringSummary.mediumPriority +
      (generateReport clones stat generatedAt om).refactoringSummary.lowPriority ∧
    (generateReport clones stat generatedAt om).refactoringSummary.totalSuggestions =
      clones.countP (fun c => c.refactoringSuggestion.isSome) ∧
    (generateReport clones stat generatedAt om).refactoringSummary.highPriority =
      clones.countP isHighPriority ∧
    (generateReport clones stat generatedAt om).refactoringSummary.mediumPriority =
      clones.countP isMediumPriority ∧
    (generateReport clones stat generatedAt om).refactoringSummary.lowPriority =
      clones.countP isLowPriority ∧
    ∀ c ∈ clones, c.refactoringSuggestion.isSome →
      (isHighPriority c && !isMediumPriority c && !isLowPriority c) ||
      (!isHighPriority c && isMediumPriority c && !isLowPriority c) ||
      (!isHighPriority c && !isMediumPriority c && isLowPriority c) := by
  have hfold := foldl_summaryStep clones (0, 0, 0)
  have hpart := countP_priority_partition clones
  refine ⟨rfl, ?_, ?_, ?_, ?_, ?_⟩
  · show (calculateRefactoringSummary clones).totalSuggestions = _
    rw [calculateRefactoringSummary]
    simp only [hfold]
    omega
  · show (calculateRefactoringSummary clones).highPriority = _
    rw [calculateRefactoringSummary]
    simp only [hfold]
    omega
  · show (calculateRefactoringSummary clones).mediumPriority = _
    rw [calculateRefactoringSummary]
    simp only [hfold]
    omega
  · show (calculateRefactoringSummary clones).lowPriority = _
    rw [calculateRefactoringSummary]
    simp only [hfold]
    omega
  · intro c _ hsome
    rcases hsug : c.refactoringSuggestion with _ | s
    · rw [hsug] at hsome
      simp at hsome
    · simp only [isHighPriority, isMediumPriority, isLowPriority, hsug]
      by_cases hhi : s.type = "extract-function" ∨ s.type = "extract-class"
      · simp [hhi]
      · by_cases hmed : s.type = "create-module"
        · simp [hhi, hmed]
        · simp [hhi, hmed]

theorem C9_witness :
    (generateReport [sampleClone] ⟨1, 10, 0⟩ "gen"
        none).refactoringSummary.totalSuggestions =
      List.countP (fun c => c.refactoringSuggestion.isSome) [sampleClone] :=
  (C9_refactoring_summary_partition [sampleClone] ⟨1, 10, 0⟩ "gen" none).2.1

/-- C10: `updateReport` never creates the report file — when the file at
`outputPath` does not exist, `performUpdate` (and hence the fired timer)
skips the update and returns without raising; only `writeInitial` creates
the file; and of several `updateReport` calls in one debounce window only
the most recent updater survives — the earlier pending updater is
cancelled. -/
theorem C10_progressive_writer_update (st : PWState) (r : AIReport)
    (u u1 u2 : AIReport → AIReport) (now : Nat)
    (habs : st.fileContent = none) :
    performUpdate u now st = st ∧
    (fireTimer now (updateReport u st)).fileContent = none ∧
    (writeInitial r now st).fileContent = some r ∧
    updateReport u2 (updateReport u1 st) = updateReport u2 st := by
  refine ⟨?_, ?_, rfl, rfl⟩
  · rw [performUpdate, habs]
  · rw [fireTimer, updateReport]
    show (performUpdate u now { st with pendingUpdate := some u }).fileContent = none
    rw [performUpdate]
    simp only [habs]

theorem C10_witness :
    performUpdate id 5 ⟨none, none, 0⟩ = ⟨none, none, 0⟩ ∧
    (fireTimer 5 (updateReport id ⟨none, none, 0⟩)).fileContent = none ∧
    (writeInitial (generateReport [] ⟨0, 0, 0⟩ "g" none) 5
        ⟨none, none, 0⟩).fileContent =
      some (generateReport [] ⟨0, 0, 0⟩ "g" none) ∧
    updateReport id (updateReport (fun r => r) ⟨none, none, 0⟩) =
      updateReport id ⟨none, none, 0⟩ :=
  C10_progressive_writer_update ⟨none, none, 0⟩
    (generateReport [] ⟨0, 0, 0⟩ "g" none) id (fun r => r) id 5 rfl

end Jscpd
